import Mathlib

/-!
Shallow embedding of the recipe-app backend (Django/DRF REST API for users,
recipes, tags, ingredients).

The repository's `app/recipe/views.py` is the authoritative source for the
viewset layer (ownership filtering, action mixins, `perform_create`).  The
model layer (`core/models.py`), the serializers (`recipe/serializers.py`,
`user/serializers.py`) and the user views/urls are not present in the source
tree; tests exercise them and the spec describes them, so those parts are
modelled from the spec (each such definition carries a doc comment saying so).

Database tables are embedded as lists of records; primary keys are `Nat`
counters carried in the store.  HTTP statuses are plain `Nat` codes.
-/

/-- A tag row: `core.models.Tag` — owned by exactly one user, has a name.
(Modelled from the spec: `core/models.py` is not under the source tree;
spec §3 gives Tag = owner + name, many-to-many with Recipe.) -/
structure Tag where
  id : Nat
  user : Nat
  name : String
  deriving Repr, DecidableEq

/-- An ingredient row: `core.models.Ingredient` — owned by exactly one user.
(Modelled from the spec, as for `Tag`.) -/
structure Ingredient where
  id : Nat
  user : Nat
  name : String
  deriving Repr, DecidableEq

/-- A recipe row: `core.models.Recipe`.  Owned by exactly one user
(many-to-one, non-nullable); scalar attributes title, time-in-minutes,
price (decimal, embedded as integer cents), description, link; many-to-many
associations to tags and ingredients held as lists of row ids.
(Modelled from the spec: `core/models.py` is not under the source tree;
spec §3 lists exactly these attributes.) -/
structure Recipe where
  id : Nat
  user : Nat
  title : String
  time_minutes : Nat
  price : Int
  description : String
  link : String
  tags : List Nat
  ingredients : List Nat
  deriving Repr, DecidableEq

/-- The domain store: the three recipe-side tables plus fresh-id counters. -/
structure DB where
  recipes : List Recipe
  tags : List Tag
  ingredients : List Ingredient
  nextRecipeId : Nat
  nextTagId : Nat
  nextIngredientId : Nat
  deriving Repr, DecidableEq

/-- A recipe create/update wire payload.  Scalar keys are optional (absent on
a partial update); `user` is the payload's `user` key (the serializer treats
it as read-only); `tags`/`ingredients` are the nested lists of `{name}`
objects, embedded as lists of names, `none` when the key is omitted. -/
structure RecipePayload where
  title : Option String
  time_minutes : Option Nat
  price : Option Int
  description : Option String
  link : Option String
  user : Option Nat
  tags : Option (List String)
  ingredients : Option (List String)
  deriving Repr, DecidableEq

/-- Insert a recipe into a list kept in descending-id order. -/
def insertByIdDesc (r : Recipe) : List Recipe → List Recipe
  | [] => [r]
  | x :: xs => if x.id ≤ r.id then r :: x :: xs else x :: insertByIdDesc r xs

/-- Order a recipe list by descending id — `order_by('-id')` in
`RecipeViewSet.get_queryset` (views.py line 22). -/
def orderByIdDesc : List Recipe → List Recipe
  | [] => []
  | x :: xs => insertByIdDesc x (orderByIdDesc xs)

namespace RecipeViewSet

/-- `RecipeViewSet.get_queryset` (views.py lines 20-22): the recipes of the
authenticated user, ordered by descending id. -/
def get_queryset (db : DB) (u : Nat) : List Recipe :=
  orderByIdDesc (db.recipes.filter (fun r => r.user == u))

/-- DRF `GenericAPIView.get_object` over `get_queryset`: look the pk up in
the user-filtered queryset; `none` stands for the Http404 raised when the
lookup finds nothing (framework behaviour, modelled; the filter itself is
views.py lines 20-22). -/
def get_object (db : DB) (u : Nat) (pk : Nat) : Option Recipe :=
  (get_queryset db u).find? (fun r => r.id == pk)

end RecipeViewSet

/-- Modelled from the spec: `recipe/serializers.py` is not under the source
tree.  Spec §4.2 step 1-2: look up an existing Tag owned by the
authenticated caller with a case-sensitive exact name match; reuse it if
found, otherwise create a new one owned by the caller.  Returns the store
and the id of the reused or created row. -/
def getOrCreateTag (db : DB) (u : Nat) (n : String) : DB × Nat :=
  match db.tags.find? (fun t => t.user == u && t.name == n) with
  | some t => (db, t.id)
  | none =>
      ({ db with
          tags := db.tags ++ [⟨db.nextTagId, u, n⟩],
          nextTagId := db.nextTagId + 1 },
        db.nextTagId)

/-- Run `getOrCreateTag` over a payload's name list, collecting the row ids
(Modelled from the spec, §4.2). -/
def getOrCreateTags (db : DB) (u : Nat) : List String → DB × List Nat
  | [] => (db, [])
  | n :: ns =>
      ((getOrCreateTags (getOrCreateTag db u n).1 u ns).1,
        (getOrCreateTag db u n).2 :: (getOrCreateTags (getOrCreateTag db u n).1 u ns).2)

/-- Modelled from the spec: ingredient version of `getOrCreateTag`
(spec §4.2 treats tags and ingredients identically). -/
def getOrCreateIngredient (db : DB) (u : Nat) (n : String) : DB × Nat :=
  match db.ingredients.find? (fun t => t.user == u && t.name == n) with
  | some t => (db, t.id)
  | none =>
      ({ db with
          ingredients := db.ingredients ++ [⟨db.nextIngredientId, u, n⟩],
          nextIngredientId := db.nextIngredientId + 1 },
        db.nextIngredientId)

/-- Modelled from the spec: ingredient version of `getOrCreateTags`. -/
def getOrCreateIngredients (db : DB) (u : Nat) : List String → DB × List Nat
  | [] => (db, [])
  | n :: ns =>
      ((getOrCreateIngredients (getOrCreateIngredient db u n).1 u ns).1,
        (getOrCreateIngredient db u n).2 ::
          (getOrCreateIngredients (getOrCreateIngredient db u n).1 u ns).2)

/-- First-occurrence deduplication of an id list, tracking ids already seen.
Embeds the set semantics of the many-to-many `add` loop: adding an id a
second time keeps a single association, in first-add order. -/
def dedupFirst (seen : List Nat) : List Nat → List Nat
  | [] => []
  | x :: xs =>
      if x ∈ seen then dedupFirst seen xs else x :: dedupFirst (x :: seen) xs

/-- Apply the scalar keys of a payload to a recipe row; absent keys leave the
field unchanged, and the payload's `user` key is ignored (Modelled from the
spec: the serializer treats ownership as read-only — spec §3 "update
payloads that attempt to change a Recipe's `user` field are silently
ignored"). -/
def applyScalars (r : Recipe) (p : RecipePayload) : Recipe :=
  { r with
    title := p.title.getD r.title,
    time_minutes := p.time_minutes.getD r.time_minutes,
    price := p.price.getD r.price,
    description := p.description.getD r.description,
    link := p.link.getD r.link }

/-- Modelled from the spec: `RecipeDetailSerializer.update` (serializers.py
is not under the source tree).  Spec §4.2 step 3: when the `tags` key is
present the recipe's association set becomes exactly the set named by the
payload (clear then get-or-create each name, scoped to the caller); when
the key is omitted the associations stay untouched; same for ingredients;
scalar keys overwrite their fields; ownership never changes.  `dedupFirst`
embeds the set semantics of the many-to-many `add`. -/
def recipeSerializerUpdate (db : DB) (u : Nat) (r : Recipe) (p : RecipePayload) :
    DB :=
  let st := match p.tags with
    | some ns => let q := getOrCreateTags db u ns; (q.1, dedupFirst [] q.2)
    | none => (db, r.tags)
  let si := match p.ingredients with
    | some ns => let q := getOrCreateIngredients st.1 u ns; (q.1, dedupFirst [] q.2)
    | none => (st.1, r.ingredients)
  let r' := { applyScalars r p with tags := st.2, ingredients := si.2 }
  { si.1 with recipes := si.1.recipes.map (fun x => if x.id == r.id then r' else x) }

/-- `GET /recipes/{id}/`: DRF retrieve = `get_object` then serialize;
404 when the object lookup fails (the lookup is filtered to the caller's
recipes by views.py lines 20-22). -/
def recipeDetailRetrieve (db : DB) (u : Nat) (pk : Nat) : Nat × Option Recipe :=
  match RecipeViewSet.get_object db u pk with
  | some r => (200, some r)
  | none => (404, none)

/-- `PATCH/PUT /recipes/{id}/`: DRF update = `get_object`, then the
serializer update; 404 (store untouched) when the lookup fails.  A PUT is
the case where every scalar key of the payload is present. -/
def recipeDetailUpdate (db : DB) (u : Nat) (pk : Nat) (p : RecipePayload) :
    Nat × DB :=
  match RecipeViewSet.get_object db u pk with
  | some r => (200, recipeSerializerUpdate db u r p)
  | none => (404, db)

/-- `DELETE /recipes/{id}/`: DRF destroy = `get_object` then row deletion,
204; 404 (store untouched) when the lookup fails. -/
def recipeDetailDestroy (db : DB) (u : Nat) (pk : Nat) : Nat × DB :=
  match RecipeViewSet.get_object db u pk with
  | some r =>
      (204, { db with recipes := db.recipes.filter (fun x => x.id != r.id) })
  | none => (404, db)

/-- `POST /recipes/`: serializer validation (title, time_minutes, price
required — Modelled from the spec §3/§6 recipe representation), then
`perform_create` saves with `user=self.request.user` (views.py lines
31-33).  Nested tag/ingredient lists go through get-or-create (spec §4.2).
Returns status, the new store, and the created row id. -/
def recipeListCreate (db : DB) (u : Nat) (p : RecipePayload) :
    Nat × DB × Option Nat :=
  match p.title, p.time_minutes, p.price with
  | some title, some tm, some pr =>
      let st := match p.tags with
        | some ns => let q := getOrCreateTags db u ns; (q.1, dedupFirst [] q.2)
        | none => (db, [])
      let si := match p.ingredients with
        | some ns => let q := getOrCreateIngredients st.1 u ns; (q.1, dedupFirst [] q.2)
        | none => (st.1, [])
      let r : Recipe :=
        { id := si.1.nextRecipeId, user := u, title := title,
          time_minutes := tm, price := pr,
          description := (p.description.getD ""), link := (p.link.getD ""),
          tags := st.2, ingredients := si.2 }
      (201,
        { si.1 with recipes := si.1.recipes ++ [r],
                    nextRecipeId := si.1.nextRecipeId + 1 },
        some r.id)
  | _, _, _ => (400, db, none)

/-! ## Routing: which HTTP methods the viewsets accept

`recipe/urls.py` is not under the source tree; the spec's §6 route table and
DRF's `DefaultRouter` give the method-to-action mapping.  Which actions a
viewset implements, however, is read directly off the mixin lists in
views.py. -/

/-- HTTP methods. -/
inductive Method
  | get | post | put | patch | delete
  deriving Repr, DecidableEq

/-- DRF viewset actions.  `patchUpdate` is DRF's PATCH-bound update action
(named with an underscore in DRF itself). -/
inductive ViewAction
  | list | create | retrieve | update | patchUpdate | destroy
  deriving Repr, DecidableEq

/-- Modelled from the spec: the router's collection-route mapping
(`GET` to list, `POST` to create), spec §6 route table / DRF SimpleRouter. -/
def listRouteMapping : Method → Option ViewAction
  | .get => some .list
  | .post => some .create
  | _ => none

/-- Modelled from the spec: the router's detail-route mapping (`GET` to
retrieve, `PUT`/`PATCH` to the two update actions, `DELETE` to destroy). -/
def detailRouteMapping : Method → Option ViewAction
  | .get => some .retrieve
  | .put => some .update
  | .patch => some .patchUpdate
  | .delete => some .destroy
  | .post => none

/-- The actions `RecipeViewSet` implements: it extends `ModelViewSet`
(views.py line 13), which bundles all six. -/
def RecipeViewSet.actions : List ViewAction :=
  [.list, .create, .retrieve, .update, .patchUpdate, .destroy]

/-- The actions `BaseRecipeAttrViewSet` implements, read off its mixin list
(views.py lines 36-41): `ListModelMixin`, `UpdateModelMixin`,
`DestroyModelMixin` — no create mixin and no retrieve mixin. -/
def BaseRecipeAttrViewSet.actions : List ViewAction :=
  [.list, .update, .patchUpdate, .destroy]

/-- `TagViewSet` inherits its actions from `BaseRecipeAttrViewSet`
(views.py line 51). -/
def TagViewSet.actions : List ViewAction := BaseRecipeAttrViewSet.actions

/-- `IngredientViewSet` inherits its actions from `BaseRecipeAttrViewSet`
(views.py line 57). -/
def IngredientViewSet.actions : List ViewAction := BaseRecipeAttrViewSet.actions

/-- Whether a method on the collection route (`/tags/`, `/ingredients/`,
`/recipes/`) is served: the router binds the method's action only when the
viewset implements it; otherwise DRF answers 405. -/
def collectionAllows (acts : List ViewAction) (m : Method) : Bool :=
  match listRouteMapping m with
  | some a => acts.contains a
  | none => false

/-- Insert a tag into a list kept in descending-name order. -/
def insertByNameDesc (t : Tag) : List Tag → List Tag
  | [] => [t]
  | x :: xs => if x.name ≤ t.name then t :: x :: xs else x :: insertByNameDesc t xs

/-- Order a tag list by descending name — `order_by('-name')` in
`BaseRecipeAttrViewSet.get_queryset` (views.py line 48). -/
def orderByNameDesc : List Tag → List Tag
  | [] => []
  | x :: xs => insertByNameDesc x (orderByNameDesc xs)

/-- `BaseRecipeAttrViewSet.get_queryset` for tags (views.py lines 46-48):
the tags of the authenticated user, ordered by descending name. -/
def TagViewSet.get_queryset (db : DB) (u : Nat) : List Tag :=
  orderByNameDesc (db.tags.filter (fun t => t.user == u))

/-! ## User store

`core/models.py` (custom user model and manager) and the `user` app's
serializers/views are not under the source tree; they are modelled from the
spec (§3 User, §4.4 registration) and exercised by the tests kept in
`core/tests/test_models.py` and `user/tests/test_user_api.py`. -/

/-- A user row: unique email, stored (hashed) password, display name
(Modelled from the spec, §3 User; hashing internals are a spec non-goal, so
the stored credential is kept opaque). -/
structure UserRec where
  id : Nat
  email : String
  password : String
  name : String
  deriving Repr, DecidableEq

/-- The user table plus a fresh-id counter. -/
structure UserStore where
  users : List UserRec
  nextUserId : Nat
  deriving Repr, DecidableEq

/-- Lower-case every character at or after the first `'@'` seen from the
right — the suffix of the address after its last `'@'`, walked on the
reversed character list. -/
def lowerDomainRev : List Char → List Char
  | [] => []
  | c :: cs => if c = '@' then c :: cs else Char.toLower c :: lowerDomainRev cs

/-- Modelled from the spec: `BaseUserManager.normalize_email` as the spec
§3 describes it — the email is "normalized by lower-casing the domain part
only", the domain part being the text after the (last) `'@'`; an address
with no `'@'` is left unchanged. -/
def normalize_email (email : String) : String :=
  if email.data.contains '@' then
    String.mk (lowerDomainRev email.data.reverse).reverse
  else email

/-- Modelled from the spec: `UserManager.create_user` (`core/models.py` is
absent from the source tree).  Creation with no email — `none`, or the
empty, falsy string — is an error (the `ValueError` the model test
expects); otherwise the email is normalized and the row stored.  `Except`
carries the error: on error no store is produced, so nothing is created. -/
def create_user (s : UserStore) (email : Option String) (password name : String) :
    Except String (UserStore × UserRec) :=
  match email with
  | none => .error "Users must have an email address"
  | some e =>
      if e = "" then .error "Users must have an email address"
      else
        let u : UserRec := ⟨s.nextUserId, normalize_email e, password, name⟩
        .ok ({ users := s.users ++ [u], nextUserId := s.nextUserId + 1 }, u)

/-- Modelled from the spec: the registration endpoint (`POST /users/create`,
`user/serializers.py` and `user/views.py` are absent from the source tree).
Spec §4.4: reject with 400 when the password fails the minimum-length
policy (the test names 5 characters as the threshold) or the email is
already registered; on success create the user.  A 400 leaves the store
untouched. -/
def createUserEndpoint (s : UserStore) (email password name : String) :
    Nat × UserStore :=
  if password.length < 5 then (400, s)
  else if s.users.any (fun u => u.email == normalize_email email) then (400, s)
  else
    match create_user s (some email) password name with
    | .ok r => (201, r.1)
    | .error _ => (400, s)

/-- Look a recipe row up by primary key (`Recipe.objects.filter(id=...)`). -/
def DB.recipeById (db : DB) (pk : Nat) : Option Recipe :=
  db.recipes.find? (fun r => r.id == pk)

/-- Store invariant: recipe primary keys are unique. -/
def DB.recipeIdsNodup (db : DB) : Prop :=
  (db.recipes.map Recipe.id).Nodup

/-- Store invariant: tag names are unique per owner (spec §3: Tag "name
(unique per owner, not globally)"). -/
def DB.tagsDistinct (db : DB) : Prop :=
  db.tags.Pairwise (fun a b => a.user = b.user → a.name ≠ b.name)

/-- Store invariant: ingredient names are unique per owner (spec §3). -/
def DB.ingredientsDistinct (db : DB) : Prop :=
  db.ingredients.Pairwise (fun a b => a.user = b.user → a.name ≠ b.name)

/-- The wire payload `{"tags": [{"name": n} for n in ns]}` — a partial
update that touches only the nested tag list. -/
def tagsOnlyPayload (ns : List String) : RecipePayload :=
  ⟨none, none, none, none, none, none, some ns, none⟩

/-! Concrete sample stores used to instantiate the theorems on closed
inputs. -/

/-- A sample recipe row owned by user 2. -/
def sampleRecipe : Recipe :=
  ⟨10, 2, "Curry", 30, 1250, "A sample dish", "http://example.com", [], []⟩

/-- A second sample recipe row, owned by user 1. -/
def sampleRecipe1 : Recipe :=
  ⟨11, 1, "Soup", 15, 500, "Another dish", "", [], []⟩

/-- A third sample recipe row, also owned by user 1. -/
def sampleRecipe2 : Recipe :=
  ⟨12, 1, "Salad", 5, 300, "", "", [], []⟩

/-- A sample store: one recipe each for users 1 and 2, one tag named
"Indian" owned by user 2, one tag named "Dessert" owned by user 1 and
associated with user 1's recipe. -/
def sampleDB : DB :=
  ⟨[sampleRecipe, { sampleRecipe1 with tags := [5] }, sampleRecipe2],
    [⟨4, 2, "Indian"⟩, ⟨5, 1, "Dessert"⟩], [], 13, 6, 0⟩

/-- The empty update payload (a PATCH with no keys). -/
def emptyPayload : RecipePayload :=
  ⟨none, none, none, none, none, none, none, none⟩

/-- A create payload with the required scalar fields and a stray `user` key
naming user 2. -/
def createPayloadUser2 : RecipePayload :=
  ⟨some "Pie", some 45, some 900, none, none, some 2, none, none⟩

/-- An empty user store. -/
def emptyUserStore : UserStore := ⟨[], 1⟩

/-! ## Lemmas: membership in the ordered querysets -/

theorem mem_insertByIdDesc {x r : Recipe} {l : List Recipe} :
    x ∈ insertByIdDesc r l ↔ x = r ∨ x ∈ l := by
  induction l with
  | nil => simp [insertByIdDesc]
  | cons a as ih =>
      by_cases h : a.id ≤ r.id
      · simp [insertByIdDesc, h]
      · simp [insertByIdDesc, h, ih]
        tauto

theorem mem_orderByIdDesc {x : Recipe} {l : List Recipe} :
    x ∈ orderByIdDesc l ↔ x ∈ l := by
  induction l with
  | nil => simp [orderByIdDesc]
  | cons a as ih => simp [orderByIdDesc, mem_insertByIdDesc, ih]

theorem mem_insertByNameDesc {x t : Tag} {l : List Tag} :
    x ∈ insertByNameDesc t l ↔ x = t ∨ x ∈ l := by
  induction l with
  | nil => simp [insertByNameDesc]
  | cons a as ih =>
      by_cases h : a.name ≤ t.name
      · simp [insertByNameDesc, h]
      · simp [insertByNameDesc, h, ih]
        tauto

theorem mem_orderByNameDesc {x : Tag} {l : List Tag} :
    x ∈ orderByNameDesc l ↔ x ∈ l := by
  induction l with
  | nil => simp [orderByNameDesc]
  | cons a as ih => simp [orderByNameDesc, mem_insertByNameDesc, ih]

theorem mem_dedupFirst {a : Nat} {l seen : List Nat} :
    a ∈ dedupFirst seen l ↔ a ∈ l ∧ a ∉ seen := by
  induction l generalizing seen with
  | nil => simp [dedupFirst]
  | cons x xs ih =>
      by_cases h : x ∈ seen
      · rw [dedupFirst, if_pos h, ih]
        constructor
        · exact fun ⟨h1, h2⟩ => ⟨List.mem_cons_of_mem _ h1, h2⟩
        · rintro ⟨h1, h2⟩
          rcases List.mem_cons.mp h1 with rfl | h1
          · exact absurd h h2
          · exact ⟨h1, h2⟩
      · rw [dedupFirst, if_neg h]
        simp only [List.mem_cons, ih, List.mem_cons]
        constructor
        · rintro (rfl | ⟨h1, h2⟩)
          · exact ⟨Or.inl rfl, h⟩
          · exact ⟨Or.inr h1, fun hs => h2 (Or.inr hs)⟩
        · rintro ⟨rfl | h1, h2⟩
          · exact Or.inl rfl
          · by_cases hx : a = x
            · exact Or.inl hx
            · exact Or.inr ⟨h1, fun hs => hs.elim hx h2⟩

/-! ## Lemmas: object lookup through the ownership-filtered queryset -/

theorem get_object_eq_none {db : DB} {u pk : Nat}
    (h : ∀ x ∈ db.recipes, x.user = u → x.id ≠ pk) :
    RecipeViewSet.get_object db u pk = none := by
  rw [RecipeViewSet.get_object, List.find?_eq_none]
  intro x hx
  rw [RecipeViewSet.get_queryset, mem_orderByIdDesc, List.mem_filter] at hx
  simp only [beq_iff_eq] at hx ⊢
  exact h x hx.1 hx.2

theorem get_object_mem {db : DB} {u pk : Nat} {r : Recipe}
    (h : RecipeViewSet.get_object db u pk = some r) :
    r ∈ db.recipes ∧ r.user = u ∧ r.id = pk := by
  rw [RecipeViewSet.get_object] at h
  have h1 := List.mem_of_find?_eq_some h
  have h2 := List.find?_some h
  rw [RecipeViewSet.get_queryset, mem_orderByIdDesc, List.mem_filter] at h1
  simp only [beq_iff_eq] at h1 h2
  exact ⟨h1.1, h1.2, h2⟩

theorem get_object_of_mem {db : DB} {u : Nat} {r : Recipe}
    (hn : (db.recipes.map Recipe.id).Nodup)
    (hr : r ∈ db.recipes) (hu : r.user = u) :
    RecipeViewSet.get_object db u r.id = some r := by
  cases h : RecipeViewSet.get_object db u r.id with
  | none =>
      exfalso
      rw [RecipeViewSet.get_object, List.find?_eq_none] at h
      refine h r ?_ (by simp)
      rw [RecipeViewSet.get_queryset, mem_orderByIdDesc, List.mem_filter]
      exact ⟨hr, by simp [hu]⟩
  | some x =>
      obtain ⟨hx, _, hid⟩ := get_object_mem h
      have : x = r := List.inj_on_of_nodup_map hn hx hr hid
      rw [this]

/-! ## Lemmas: the get-or-create reconciliation primitive -/

theorem getOrCreateTag_tags_ext (db : DB) (u : Nat) (n : String) :
    ∃ ext, (getOrCreateTag db u n).1.tags = db.tags ++ ext := by
  rw [getOrCreateTag]
  cases h : db.tags.find? (fun t => t.user == u && t.name == n) with
  | some t => exact ⟨[], by simp⟩
  | none => exact ⟨[⟨db.nextTagId, u, n⟩], rfl⟩

theorem getOrCreateTags_tags_ext (db : DB) (u : Nat) (ns : List String) :
    ∃ ext, (getOrCreateTags db u ns).1.tags = db.tags ++ ext := by
  induction ns generalizing db with
  | nil => exact ⟨[], by simp [getOrCreateTags]⟩
  | cons n ns ih =>
      obtain ⟨e1, h1⟩ := getOrCreateTag_tags_ext db u n
      obtain ⟨e2, h2⟩ := ih (getOrCreateTag db u n).1
      exact ⟨e1 ++ e2, by rw [getOrCreateTags]; simp [h2, h1]⟩

theorem getOrCreateIngredient_ingredients_ext (db : DB) (u : Nat) (n : String) :
    ∃ ext, (getOrCreateIngredient db u n).1.ingredients = db.ingredients ++ ext := by
  rw [getOrCreateIngredient]
  cases h : db.ingredients.find? (fun t => t.user == u && t.name == n) with
  | some t => exact ⟨[], by simp⟩
  | none => exact ⟨[⟨db.nextIngredientId, u, n⟩], rfl⟩

theorem getOrCreateIngredients_ingredients_ext (db : DB) (u : Nat) (ns : List String) :
    ∃ ext, (getOrCreateIngredients db u ns).1.ingredients = db.ingredients ++ ext := by
  induction ns generalizing db with
  | nil => exact ⟨[], by simp [getOrCreateIngredients]⟩
  | cons n ns ih =>
      obtain ⟨e1, h1⟩ := getOrCreateIngredient_ingredients_ext db u n
      obtain ⟨e2, h2⟩ := ih (getOrCreateIngredient db u n).1
      exact ⟨e1 ++ e2, by rw [getOrCreateIngredients]; simp [h2, h1]⟩

theorem getOrCreateTag_frame (db : DB) (u : Nat) (n : String) :
    (getOrCreateTag db u n).1.recipes = db.recipes ∧
      (getOrCreateTag db u n).1.ingredients = db.ingredients ∧
      (getOrCreateTag db u n).1.nextRecipeId = db.nextRecipeId ∧
      (getOrCreateTag db u n).1.nextIngredientId = db.nextIngredientId := by
  rw [getOrCreateTag]
  cases h : db.tags.find? (fun t => t.user == u && t.name == n) <;> simp

theorem getOrCreateTags_frame (db : DB) (u : Nat) (ns : List String) :
    (getOrCreateTags db u ns).1.recipes = db.recipes ∧
      (getOrCreateTags db u ns).1.ingredients = db.ingredients ∧
      (getOrCreateTags db u ns).1.nextRecipeId = db.nextRecipeId ∧
      (getOrCreateTags db u ns).1.nextIngredientId = db.nextIngredientId := by
  induction ns generalizing db with
  | nil => simp [getOrCreateTags]
  | cons n ns ih =>
      obtain ⟨h1, h2, h3, h4⟩ := getOrCreateTag_frame db u n
      obtain ⟨g1, g2, g3, g4⟩ := ih (getOrCreateTag db u n).1
      rw [getOrCreateTags]
      exact ⟨g1.trans h1, g2.trans h2, g3.trans h3, g4.trans h4⟩

theorem getOrCreateIngredient_frame (db : DB) (u : Nat) (n : String) :
    (getOrCreateIngredient db u n).1.recipes = db.recipes ∧
      (getOrCreateIngredient db u n).1.tags = db.tags ∧
      (getOrCreateIngredient db u n).1.nextRecipeId = db.nextRecipeId ∧
      (getOrCreateIngredient db u n).1.nextTagId = db.nextTagId := by
  rw [getOrCreateIngredient]
  cases h : db.ingredients.find? (fun t => t.user == u && t.name == n) <;> simp

theorem getOrCreateIngredients_frame (db : DB) (u : Nat) (ns : List String) :
    (getOrCreateIngredients db u ns).1.recipes = db.recipes ∧
      (getOrCreateIngredients db u ns).1.tags = db.tags ∧
      (getOrCreateIngredients db u ns).1.nextRecipeId = db.nextRecipeId ∧
      (getOrCreateIngredients db u ns).1.nextTagId = db.nextTagId := by
  induction ns generalizing db with
  | nil => simp [getOrCreateIngredients]
  | cons n ns ih =>
      obtain ⟨h1, h2, h3, h4⟩ := getOrCreateIngredient_frame db u n
      obtain ⟨g1, g2, g3, g4⟩ := ih (getOrCreateIngredient db u n).1
      rw [getOrCreateIngredients]
      exact ⟨g1.trans h1, g2.trans h2, g3.trans h3, g4.trans h4⟩

theorem getOrCreateTag_spec (db : DB) (u : Nat) (n : String) :
    ∃ t, t ∈ (getOrCreateTag db u n).1.tags ∧ t.id = (getOrCreateTag db u n).2 ∧
      t.user = u ∧ t.name = n := by
  rw [getOrCreateTag]
  cases h : db.tags.find? (fun t => t.user == u && t.name == n) with
  | some t =>
      have hp := List.find?_some h
      have hm := List.mem_of_find?_eq_some h
      simp only [Bool.and_eq_true, beq_iff_eq] at hp
      exact ⟨t, hm, rfl, hp.1, hp.2⟩
  | none => exact ⟨⟨db.nextTagId, u, n⟩, by simp, rfl, rfl, rfl⟩

theorem getOrCreateIngredient_spec (db : DB) (u : Nat) (n : String) :
    ∃ t, t ∈ (getOrCreateIngredient db u n).1.ingredients ∧
      t.id = (getOrCreateIngredient db u n).2 ∧ t.user = u ∧ t.name = n := by
  rw [getOrCreateIngredient]
  cases h : db.ingredients.find? (fun t => t.user == u && t.name == n) with
  | some t =>
      have hp := List.find?_some h
      have hm := List.mem_of_find?_eq_some h
      simp only [Bool.and_eq_true, beq_iff_eq] at hp
      exact ⟨t, hm, rfl, hp.1, hp.2⟩
  | none => exact ⟨⟨db.nextIngredientId, u, n⟩, by simp, rfl, rfl, rfl⟩

theorem getOrCreateTag_stable {db db2 : DB} {u : Nat} {n : String} {ext : List Tag}
    (h2 : db2.tags = (getOrCreateTag db u n).1.tags ++ ext) :
    getOrCreateTag db2 u n = (db2, (getOrCreateTag db u n).2) := by
  rw [getOrCreateTag] at h2 ⊢
  cases h : db.tags.find? (fun t => t.user == u && t.name == n) with
  | some t =>
      rw [h] at h2
      simp only at h2
      rw [h2, List.find?_append, h]
      simp only [Option.or_some]
      rw [getOrCreateTag, h]
  | none =>
      rw [h] at h2
      simp only at h2
      rw [h2, List.append_assoc, List.find?_append, h]
      have hpos : List.find? (fun t => t.user == u && t.name == n)
          ([(⟨db.nextTagId, u, n⟩ : Tag)] ++ ext) = some ⟨db.nextTagId, u, n⟩ := by
        rw [List.singleton_append]
        exact List.find?_cons_of_pos _ (by simp)
      rw [hpos]
      simp only [Option.none_or]
      rw [getOrCreateTag, h]

theorem getOrCreateIngredient_stable {db db2 : DB} {u : Nat} {n : String}
    {ext : List Ingredient}
    (h2 : db2.ingredients = (getOrCreateIngredient db u n).1.ingredients ++ ext) :
    getOrCreateIngredient db2 u n = (db2, (getOrCreateIngredient db u n).2) := by
  rw [getOrCreateIngredient] at h2 ⊢
  cases h : db.ingredients.find? (fun t => t.user == u && t.name == n) with
  | some t =>
      rw [h] at h2
      simp only at h2
      rw [h2, List.find?_append, h]
      simp only [Option.or_some]
      rw [getOrCreateIngredient, h]
  | none =>
      rw [h] at h2
      simp only at h2
      rw [h2, List.append_assoc, List.find?_append, h]
      have hpos : List.find? (fun t => t.user == u && t.name == n)
          ([(⟨db.nextIngredientId, u, n⟩ : Ingredient)] ++ ext) =
            some ⟨db.nextIngredientId, u, n⟩ := by
        rw [List.singleton_append]
        exact List.find?_cons_of_pos _ (by simp)
      rw [hpos]
      simp only [Option.none_or]
      rw [getOrCreateIngredient, h]

theorem getOrCreateTags_stable {db db2 : DB} {u : Nat} {ns : List String}
    {ext : List Tag}
    (h2 : db2.tags = (getOrCreateTags db u ns).1.tags ++ ext) :
    getOrCreateTags db2 u ns = (db2, (getOrCreateTags db u ns).2) := by
  induction ns generalizing db db2 ext with
  | nil => simp [getOrCreateTags]
  | cons n ns ih =>
      rw [getOrCreateTags] at h2
      obtain ⟨e2, he2⟩ := getOrCreateTags_tags_ext (getOrCreateTag db u n).1 u ns
      have hx : db2.tags = (getOrCreateTag db u n).1.tags ++ (e2 ++ ext) := by
        rw [h2, he2, List.append_assoc]
      have hstep : getOrCreateTag db2 u n = (db2, (getOrCreateTag db u n).2) :=
        getOrCreateTag_stable hx
      have hrest : getOrCreateTags db2 u ns =
          (db2, (getOrCreateTags (getOrCreateTag db u n).1 u ns).2) := by
        exact ih h2
      rw [getOrCreateTags, hstep, hrest, getOrCreateTags]

theorem getOrCreateIngredients_stable {db db2 : DB} {u : Nat} {ns : List String}
    {ext : List Ingredient}
    (h2 : db2.ingredients = (getOrCreateIngredients db u ns).1.ingredients ++ ext) :
    getOrCreateIngredients db2 u ns = (db2, (getOrCreateIngredients db u ns).2) := by
  induction ns generalizing db db2 ext with
  | nil => simp [getOrCreateIngredients]
  | cons n ns ih =>
      rw [getOrCreateIngredients] at h2
      obtain ⟨e2, he2⟩ :=
        getOrCreateIngredients_ingredients_ext (getOrCreateIngredient db u n).1 u ns
      have hx : db2.ingredients =
          (getOrCreateIngredient db u n).1.ingredients ++ (e2 ++ ext) := by
        rw [h2, he2, List.append_assoc]
      have hstep : getOrCreateIngredient db2 u n =
          (db2, (getOrCreateIngredient db u n).2) :=
        getOrCreateIngredient_stable hx
      have hrest : getOrCreateIngredients db2 u ns =
          (db2, (getOrCreateIngredients (getOrCreateIngredient db u n).1 u ns).2) := by
        exact ih h2
      rw [getOrCreateIngredients, hstep, hrest, getOrCreateIngredients]

theorem getOrCreateTags_covers {db : DB} {u : Nat} {ns : List String} :
    ∀ n ∈ ns, ∃ t, t ∈ (getOrCreateTags db u ns).1.tags ∧ t.user = u ∧
      t.name = n ∧ t.id ∈ (getOrCreateTags db u ns).2 := by
  induction ns generalizing db with
  | nil => intro n hn; cases hn
  | cons m ns ih =>
      intro n hn
      rw [getOrCreateTags]
      rcases List.mem_cons.mp hn with rfl | hn
      · obtain ⟨t, ht, hid, hu, hname⟩ := getOrCreateTag_spec db u n
        obtain ⟨ext, hext⟩ := getOrCreateTags_tags_ext (getOrCreateTag db u n).1 u ns
        exact ⟨t, by rw [hext]; exact List.mem_append_left _ ht, hu, hname,
          by rw [hid]; exact List.mem_cons_self _ _⟩
      · obtain ⟨t, ht, hu, hname, hid⟩ := @ih (getOrCreateTag db u m).1 n hn
        exact ⟨t, ht, hu, hname, List.mem_cons_of_mem _ hid⟩

theorem getOrCreateTags_ids {db : DB} {u : Nat} {ns : List String} :
    ∀ i ∈ (getOrCreateTags db u ns).2, ∃ t, t ∈ (getOrCreateTags db u ns).1.tags ∧
      t.id = i ∧ t.user = u ∧ t.name ∈ ns := by
  induction ns generalizing db with
  | nil => intro i hi; rw [getOrCreateTags] at hi; cases hi
  | cons m ns ih =>
      intro i hi
      rw [getOrCreateTags] at hi ⊢
      rcases List.mem_cons.mp hi with rfl | hi
      · obtain ⟨t, ht, hid, hu, hname⟩ := getOrCreateTag_spec db u m
        obtain ⟨ext, hext⟩ := getOrCreateTags_tags_ext (getOrCreateTag db u m).1 u ns
        exact ⟨t, by rw [hext]; exact List.mem_append_left _ ht, hid, hu,
          by rw [hname]; exact List.mem_cons_self _ _⟩
      · obtain ⟨t, ht, hid, hu, hname⟩ := @ih (getOrCreateTag db u m).1 i hi
        exact ⟨t, ht, hid, hu, List.mem_cons_of_mem _ hname⟩

theorem getOrCreateIngredients_covers {db : DB} {u : Nat} {ns : List String} :
    ∀ n ∈ ns, ∃ t, t ∈ (getOrCreateIngredients db u ns).1.ingredients ∧
      t.user = u ∧ t.name = n ∧ t.id ∈ (getOrCreateIngredients db u ns).2 := by
  induction ns generalizing db with
  | nil => intro n hn; cases hn
  | cons m ns ih =>
      intro n hn
      rw [getOrCreateIngredients]
      rcases List.mem_cons.mp hn with rfl | hn
      · obtain ⟨t, ht, hid, hu, hname⟩ := getOrCreateIngredient_spec db u n
        obtain ⟨ext, hext⟩ :=
          getOrCreateIngredients_ingredients_ext (getOrCreateIngredient db u n).1 u ns
        exact ⟨t, by rw [hext]; exact List.mem_append_left _ ht, hu, hname,
          by rw [hid]; exact List.mem_cons_self _ _⟩
      · obtain ⟨t, ht, hu, hname, hid⟩ := @ih (getOrCreateIngredient db u m).1 n hn
        exact ⟨t, ht, hu, hname, List.mem_cons_of_mem _ hid⟩

theorem getOrCreateIngredients_ids {db : DB} {u : Nat} {ns : List String} :
    ∀ i ∈ (getOrCreateIngredients db u ns).2,
      ∃ t, t ∈ (getOrCreateIngredients db u ns).1.ingredients ∧
        t.id = i ∧ t.user = u ∧ t.name ∈ ns := by
  induction ns generalizing db with
  | nil => intro i hi; rw [getOrCreateIngredients] at hi; cases hi
  | cons m ns ih =>
      intro i hi
      rw [getOrCreateIngredients] at hi ⊢
      rcases List.mem_cons.mp hi with rfl | hi
      · obtain ⟨t, ht, hid, hu, hname⟩ := getOrCreateIngredient_spec db u m
        obtain ⟨ext, hext⟩ :=
          getOrCreateIngredients_ingredients_ext (getOrCreateIngredient db u m).1 u ns
        exact ⟨t, by rw [hext]; exact List.mem_append_left _ ht, hid, hu,
          by rw [hname]; exact List.mem_cons_self _ _⟩
      · obtain ⟨t, ht, hid, hu, hname⟩ := @ih (getOrCreateIngredient db u m).1 i hi
        exact ⟨t, ht, hid, hu, List.mem_cons_of_mem _ hname⟩

theorem getOrCreateTag_distinct {db : DB} {u : Nat} {n : String}
    (h : db.tagsDistinct) : (getOrCreateTag db u n).1.tagsDistinct := by
  rw [DB.tagsDistinct] at h ⊢
  rw [getOrCreateTag]
  cases hf : db.tags.find? (fun t => t.user == u && t.name == n) with
  | some t => exact h
  | none =>
      simp only
      rw [List.pairwise_append]
      refine ⟨h, List.pairwise_singleton _ _, ?_⟩
      intro a ha b hb
      rw [List.mem_singleton] at hb
      subst hb
      rw [List.find?_eq_none] at hf
      intro huser hname
      have := hf a ha
      simp only [Bool.and_eq_true, beq_iff_eq, not_and] at this
      exact this huser hname

theorem getOrCreateTags_distinct {db : DB} {u : Nat} {ns : List String}
    (h : db.tagsDistinct) : (getOrCreateTags db u ns).1.tagsDistinct := by
  induction ns generalizing db with
  | nil => exact h
  | cons n ns ih =>
      rw [getOrCreateTags]
      exact @ih (getOrCreateTag db u n).1 (getOrCreateTag_distinct h)

theorem getOrCreateIngredient_distinct {db : DB} {u : Nat} {n : String}
    (h : db.ingredientsDistinct) :
    (getOrCreateIngredient db u n).1.ingredientsDistinct := by
  rw [DB.ingredientsDistinct] at h ⊢
  rw [getOrCreateIngredient]
  cases hf : db.ingredients.find? (fun t => t.user == u && t.name == n) with
  | some t => exact h
  | none =>
      simp only
      rw [List.pairwise_append]
      refine ⟨h, List.pairwise_singleton _ _, ?_⟩
      intro a ha b hb
      rw [List.mem_singleton] at hb
      subst hb
      rw [List.find?_eq_none] at hf
      intro huser hname
      have := hf a ha
      simp only [Bool.and_eq_true, beq_iff_eq, not_and] at this
      exact this huser hname

theorem getOrCreateIngredients_distinct {db : DB} {u : Nat} {ns : List String}
    (h : db.ingredientsDistinct) :
    (getOrCreateIngredients db u ns).1.ingredientsDistinct := by
  induction ns generalizing db with
  | nil => exact h
  | cons n ns ih =>
      rw [getOrCreateIngredients]
      exact @ih (getOrCreateIngredient db u n).1 (getOrCreateIngredient_distinct h)

theorem tagsDistinct_unique {db : DB} (h : db.tagsDistinct) {t1 t2 : Tag}
    (h1 : t1 ∈ db.tags) (h2 : t2 ∈ db.tags)
    (hu : t1.user = t2.user) (hn : t1.name = t2.name) : t1 = t2 := by
  by_contra hne
  have hsymm : Symmetric (fun a b : Tag => a.user = b.user → a.name ≠ b.name) := by
    intro a b hab hba hnm
    exact hab hba.symm hnm.symm
  exact (h.forall hsymm h1 h2 hne) hu hn

theorem ingredientsDistinct_unique {db : DB} (h : db.ingredientsDistinct)
    {t1 t2 : Ingredient} (h1 : t1 ∈ db.ingredients) (h2 : t2 ∈ db.ingredients)
    (hu : t1.user = t2.user) (hn : t1.name = t2.name) : t1 = t2 := by
  by_contra hne
  have hsymm : Symmetric (fun a b : Ingredient => a.user = b.user → a.name ≠ b.name) := by
    intro a b hab hba hnm
    exact hab hba.symm hnm.symm
  exact (h.forall hsymm h1 h2 hne) hu hn

theorem find?_map_upd {l : List Recipe} {r R : Recipe} (hr : r ∈ l)
    (hid : R.id = r.id) :
    (l.map (fun x => if x.id == r.id then R else x)).find? (fun x => x.id == r.id) =
      some R := by
  rw [List.find?_map]
  have hfun : ((fun x : Recipe => x.id == r.id) ∘
      (fun x => if x.id == r.id then R else x)) = (fun x : Recipe => x.id == r.id) := by
    funext x
    by_cases h : x.id = r.id <;> simp [h, hid]
  rw [hfun]
  cases hf : l.find? (fun x => x.id == r.id) with
  | none =>
      exfalso
      rw [List.find?_eq_none] at hf
      exact hf r hr (by simp)
  | some x0 =>
      have hp := List.find?_some hf
      simp only [Option.map_some']
      rw [if_pos hp]

theorem rsu_master (db : DB) (u : Nat) (r : Recipe) (p : RecipePayload) :
    ∃ R : Recipe, R.id = r.id ∧ R.user = r.user ∧
      (recipeSerializerUpdate db u r p).recipes =
        db.recipes.map (fun x => if x.id == r.id then R else x) ∧
      (∀ ns, p.tags = some ns →
        R.tags = dedupFirst [] (getOrCreateTags db u ns).2 ∧
        (recipeSerializerUpdate db u r p).tags = (getOrCreateTags db u ns).1.tags) ∧
      (p.tags = none → R.tags = r.tags ∧
        (recipeSerializerUpdate db u r p).tags = db.tags) ∧
      (p.ingredients = none → R.ingredients = r.ingredients ∧
        (recipeSerializerUpdate db u r p).ingredients = db.ingredients) ∧
      (p.ingredients = some [] → R.ingredients = [] ∧
        (recipeSerializerUpdate db u r p).ingredients = db.ingredients) ∧
      (∀ ns, p.ingredients = some ns → ∃ X : DB,
        R.ingredients = dedupFirst [] (getOrCreateIngredients X u ns).2 ∧
        (recipeSerializerUpdate db u r p).ingredients =
          (getOrCreateIngredients X u ns).1.ingredients) := by
  cases hpt : p.tags with
  | none =>
      cases hpi : p.ingredients with
      | none =>
          refine ⟨{ applyScalars r p with
              tags := r.tags, ingredients := r.ingredients },
            by simp [applyScalars], by simp [applyScalars], ?_, ?_, ?_, ?_, ?_, ?_⟩
          · simp [recipeSerializerUpdate, hpt, hpi]
          · intro ns hns; exact Option.noConfusion hns
          · intro hx; exact ⟨rfl, by simp [recipeSerializerUpdate, hpt, hpi]⟩
          · intro hx; exact ⟨rfl, by simp [recipeSerializerUpdate, hpt, hpi]⟩
          · intro hx; exact Option.noConfusion hx
          · intro ns hns; exact Option.noConfusion hns
      | some is =>
          refine ⟨{ applyScalars r p with
              tags := r.tags,
              ingredients := dedupFirst [] (getOrCreateIngredients db u is).2 },
            by simp [applyScalars], by simp [applyScalars], ?_, ?_, ?_, ?_, ?_, ?_⟩
          · simp only [recipeSerializerUpdate, hpt, hpi]
            rw [(getOrCreateIngredients_frame db u is).1]
          · intro ns hns; exact Option.noConfusion hns
          · intro hx
            refine ⟨rfl, ?_⟩
            simp only [recipeSerializerUpdate, hpt, hpi]
            exact (getOrCreateIngredients_frame db u is).2.1
          · intro hx; exact Option.noConfusion hx
          · intro hx
            injection hx with hx
            subst hx
            refine ⟨by simp [getOrCreateIngredients, dedupFirst], ?_⟩
            simp only [recipeSerializerUpdate, hpt, hpi]
            simp [getOrCreateIngredients]
          · intro ns hns
            injection hns with hns
            subst hns
            refine ⟨db, rfl, ?_⟩
            simp only [recipeSerializerUpdate, hpt, hpi]
  | some ts =>
      cases hpi : p.ingredients with
      | none =>
          refine ⟨{ applyScalars r p with
              tags := dedupFirst [] (getOrCreateTags db u ts).2,
              ingredients := r.ingredients },
            by simp [applyScalars], by simp [applyScalars], ?_, ?_, ?_, ?_, ?_, ?_⟩
          · simp only [recipeSerializerUpdate, hpt, hpi]
            rw [(getOrCreateTags_frame db u ts).1]
          · intro ns hns
            injection hns with hns
            subst hns
            refine ⟨rfl, ?_⟩
            simp [recipeSerializerUpdate, hpt, hpi]
          · intro hx; exact Option.noConfusion hx
          · intro hx
            refine ⟨rfl, ?_⟩
            simp only [recipeSerializerUpdate, hpt, hpi]
            exact (getOrCreateTags_frame db u ts).2.1
          · intro hx; exact Option.noConfusion hx
          · intro ns hns; exact Option.noConfusion hns
      | some is =>
          refine ⟨{ applyScalars r p with
              tags := dedupFirst [] (getOrCreateTags db u ts).2,
              ingredients :=
                dedupFirst []
                  (getOrCreateIngredients (getOrCreateTags db u ts).1 u is).2 },
            by simp [applyScalars], by simp [applyScalars], ?_, ?_, ?_, ?_, ?_, ?_⟩
          · simp only [recipeSerializerUpdate, hpt, hpi]
            rw [(getOrCreateIngredients_frame (getOrCreateTags db u ts).1 u is).1,
              (getOrCreateTags_frame db u ts).1]
          · intro ns hns
            injection hns with hns
            subst hns
            refine ⟨rfl, ?_⟩
            simp only [recipeSerializerUpdate, hpt, hpi]
            exact (getOrCreateIngredients_frame (getOrCreateTags db u ts).1 u is).2.1
          · intro hx; exact Option.noConfusion hx
          · intro hx; exact Option.noConfusion hx
          · intro hx
            injection hx with hx
            subst hx
            refine ⟨by simp [getOrCreateIngredients, dedupFirst], ?_⟩
            simp only [recipeSerializerUpdate, hpt, hpi]
            simp [getOrCreateIngredients]
            exact (getOrCreateTags_frame db u ts).2.1
          · intro ns hns
            injection hns with hns
            subst hns
            refine ⟨(getOrCreateTags db u ts).1, rfl, ?_⟩
            simp only [recipeSerializerUpdate, hpt, hpi]

theorem map_id_upd {l : List Recipe} {r R : Recipe} (hid : R.id = r.id) :
    (l.map (fun x => if x.id == r.id then R else x)).map Recipe.id =
      l.map Recipe.id := by
  rw [List.map_map]
  apply List.map_congr_left
  intro a ha
  by_cases h : a.id = r.id <;> simp [h, hid]

theorem mem_map_upd {l : List Recipe} {r R x : Recipe} (hx : x ∈ l)
    (hne : x.id ≠ r.id) :
    x ∈ l.map (fun y => if y.id == r.id then R else y) := by
  have hkeep : (if x.id == r.id then R else x) = x := by simp [hne]
  rw [← hkeep]
  exact List.mem_map_of_mem _ hx

theorem recipeById_map_pres {l : List Recipe} {g : Recipe → Recipe} {k : Nat}
    (hg : ∀ x, (g x).id = x.id) :
    (l.map g).find? (fun x => x.id == k) =
      (l.find? (fun x => x.id == k)).map g := by
  rw [List.find?_map]
  have hfun : ((fun x : Recipe => x.id == k) ∘ g) = (fun x : Recipe => x.id == k) := by
    funext x
    simp [hg]
  rw [hfun]

theorem lowerDomainRev_append {d rest : List Char} (hd : '@' ∉ d) :
    lowerDomainRev (d ++ '@' :: rest) = d.map Char.toLower ++ '@' :: rest := by
  induction d with
  | nil => simp [lowerDomainRev]
  | cons c cs ih =>
      have hc : c ≠ '@' := fun h => hd (h ▸ List.mem_cons_self c cs)
      have hcs : '@' ∉ cs := fun h => hd (List.mem_cons_of_mem _ h)
      simp only [List.cons_append, lowerDomainRev, if_neg hc, List.append_eq,
        ih hcs, List.map_cons]

/-! ## Claim theorems -/

/-- C1: for every authenticated user and every recipe owned by a different
user, a detail fetch, update (PATCH/PUT) or delete request from that user
returns not-found (404), never forbidden (403), and leaves the store — in
particular the recipe row, its owner and its fields — unchanged. -/
theorem claim_C1 (db : DB) (u : Nat) (r : Recipe) (p : RecipePayload)
    (hwf : db.recipeIdsNodup) (hr : r ∈ db.recipes) (hown : r.user ≠ u) :
    recipeDetailRetrieve db u r.id = (404, none) ∧
    recipeDetailUpdate db u r.id p = (404, db) ∧
    recipeDetailDestroy db u r.id = (404, db) ∧
    r ∈ (recipeDetailUpdate db u r.id p).2.recipes ∧
    r ∈ (recipeDetailDestroy db u r.id).2.recipes := by
  have hnone : RecipeViewSet.get_object db u r.id = none := by
    apply get_object_eq_none
    intro x hx hxu hxid
    have hxr : x = r := List.inj_on_of_nodup_map hwf hx hr hxid
    exact hown (hxr ▸ hxu)
  refine ⟨?_, ?_, ?_, ?_, ?_⟩
  · rw [recipeDetailRetrieve, hnone]
  · rw [recipeDetailUpdate, hnone]
  · rw [recipeDetailDestroy, hnone]
  · rw [recipeDetailUpdate, hnone]; exact hr
  · rw [recipeDetailDestroy, hnone]; exact hr

/-- Witness for C1 on closed input: user 1 requesting user 2's recipe. -/
theorem claim_C1_witness :
    recipeDetailRetrieve sampleDB 1 sampleRecipe.id = (404, none) ∧
    recipeDetailUpdate sampleDB 1 sampleRecipe.id emptyPayload = (404, sampleDB) ∧
    recipeDetailDestroy sampleDB 1 sampleRecipe.id = (404, sampleDB) ∧
    sampleRecipe ∈ (recipeDetailUpdate sampleDB 1 sampleRecipe.id emptyPayload).2.recipes ∧
    sampleRecipe ∈ (recipeDetailDestroy sampleDB 1 sampleRecipe.id).2.recipes :=
  claim_C1 sampleDB 1 sampleRecipe emptyPayload
    (by show (sampleDB.recipes.map Recipe.id).Nodup; decide) (by decide) (by decide)

/-- C10: a DELETE by the owner on a recipe's detail endpoint responds
204 No Content and afterwards no recipe row with that id exists. -/
theorem claim_C10 (db : DB) (u : Nat) (r : Recipe)
    (hr : r ∈ db.recipes) (hu : r.user = u) :
    (recipeDetailDestroy db u r.id).1 = 204 ∧
    ∀ x ∈ (recipeDetailDestroy db u r.id).2.recipes, x.id ≠ r.id := by
  cases h : RecipeViewSet.get_object db u r.id with
  | none =>
      exfalso
      rw [RecipeViewSet.get_object, List.find?_eq_none] at h
      refine h r ?_ (by simp)
      rw [RecipeViewSet.get_queryset, mem_orderByIdDesc, List.mem_filter]
      exact ⟨hr, by simp [hu]⟩
  | some s =>
      obtain ⟨-, -, hsid⟩ := get_object_mem h
      constructor
      · rw [recipeDetailDestroy, h]
      · intro x hx
        rw [recipeDetailDestroy, h] at hx
        simp only at hx
        rw [List.mem_filter] at hx
        have := hx.2
        simp only [bne_iff_ne, ne_eq] at this
        rw [← hsid]
        exact this

/-- Witness for C10 on closed input: user 2 deleting their own recipe. -/
theorem claim_C10_witness :
    (recipeDetailDestroy sampleDB 2 sampleRecipe.id).1 = 204 ∧
    ∀ x ∈ (recipeDetailDestroy sampleDB 2 sampleRecipe.id).2.recipes,
      x.id ≠ sampleRecipe.id :=
  claim_C10 sampleDB 2 sampleRecipe (by decide) (by decide)

/-- C5: a recipe's owner is immutable: any update by the owner — including
one whose payload carries a `user` key naming another user — succeeds
(200) and leaves the row's owner unchanged; and a valid create always sets
the owner to the authenticated caller, whatever the payload's `user` key
says. -/
theorem claim_C5 (db : DB) (u : Nat) (r : Recipe) (p q : RecipePayload)
    (hwf : db.recipeIdsNodup) (hr : r ∈ db.recipes) (hu : r.user = u)
    (hq : q.title.isSome ∧ q.time_minutes.isSome ∧ q.price.isSome) :
    ((recipeDetailUpdate db u r.id p).1 = 200 ∧
      ∃ r', (recipeDetailUpdate db u r.id p).2.recipeById r.id = some r' ∧
        r'.user = r.user ∧ r'.id = r.id) ∧
    ((recipeListCreate db u q).1 = 201 ∧
      ∃ rN, (recipeListCreate db u q).2.1.recipes = db.recipes ++ [rN] ∧
        rN.user = u) := by
  have hobj : RecipeViewSet.get_object db u r.id = some r :=
    get_object_of_mem hwf hr hu
  obtain ⟨R, hRid, hRuser, hRrec, -, -, -, -, -⟩ := rsu_master db u r p
  constructor
  · constructor
    · rw [recipeDetailUpdate, hobj]
    · refine ⟨R, ?_, hRuser, hRid⟩
      rw [recipeDetailUpdate, hobj]
      simp only
      rw [DB.recipeById, hRrec]
      exact find?_map_upd hr hRid
  · obtain ⟨t, ht⟩ := Option.isSome_iff_exists.mp hq.1
    obtain ⟨tm, htm⟩ := Option.isSome_iff_exists.mp hq.2.1
    obtain ⟨pr, hpr⟩ := Option.isSome_iff_exists.mp hq.2.2
    cases hqt : q.tags with
    | none =>
        cases hqi : q.ingredients with
        | none =>
            constructor
            · simp [recipeListCreate, ht, htm, hpr]
            · refine ⟨⟨db.nextRecipeId, u, t, tm, pr, q.description.getD "",
                q.link.getD "", [], []⟩, ?_, rfl⟩
              simp [recipeListCreate, ht, htm, hpr, hqt, hqi]
        | some is =>
            constructor
            · simp [recipeListCreate, ht, htm, hpr]
            · refine ⟨⟨(getOrCreateIngredients db u is).1.nextRecipeId, u, t, tm, pr,
                q.description.getD "", q.link.getD "", [],
                dedupFirst [] (getOrCreateIngredients db u is).2⟩, ?_, rfl⟩
              simp only [recipeListCreate, ht, htm, hpr, hqt, hqi]
              rw [(getOrCreateIngredients_frame db u is).1]
    | some ts =>
        cases hqi : q.ingredients with
        | none =>
            constructor
            · simp [recipeListCreate, ht, htm, hpr]
            · refine ⟨⟨(getOrCreateTags db u ts).1.nextRecipeId, u, t, tm, pr,
                q.description.getD "", q.link.getD "",
                dedupFirst [] (getOrCreateTags db u ts).2, []⟩, ?_, rfl⟩
              simp only [recipeListCreate, ht, htm, hpr, hqt, hqi]
              rw [(getOrCreateTags_frame db u ts).1]
        | some is =>
            constructor
            · simp [recipeListCreate, ht, htm, hpr]
            · refine ⟨⟨(getOrCreateIngredients (getOrCreateTags db u ts).1 u
                  is).1.nextRecipeId, u, t, tm, pr,
                q.description.getD "", q.link.getD "",
                dedupFirst [] (getOrCreateTags db u ts).2,
                dedupFirst []
                  (getOrCreateIngredients (getOrCreateTags db u ts).1 u is).2⟩,
                ?_, rfl⟩
              simp only [recipeListCreate, ht, htm, hpr, hqt, hqi]
              rw [(getOrCreateIngredients_frame (getOrCreateTags db u ts).1 u is).1,
                (getOrCreateTags_frame db u ts).1]

/-- Witness for C5 on closed input: user 1 patching their own recipe with a
payload whose `user` key names user 2, and creating with the same stray
key. -/
theorem claim_C5_witness :
    ((recipeDetailUpdate sampleDB 1 sampleRecipe2.id createPayloadUser2).1 = 200 ∧
      ∃ r', (recipeDetailUpdate sampleDB 1 sampleRecipe2.id
          createPayloadUser2).2.recipeById sampleRecipe2.id = some r' ∧
        r'.user = sampleRecipe2.user ∧ r'.id = sampleRecipe2.id) ∧
    ((recipeListCreate sampleDB 1 createPayloadUser2).1 = 201 ∧
      ∃ rN, (recipeListCreate sampleDB 1 createPayloadUser2).2.1.recipes =
          sampleDB.recipes ++ [rN] ∧ rN.user = 1) :=
  claim_C5 sampleDB 1 sampleRecipe2 createPayloadUser2 createPayloadUser2
    (by show (sampleDB.recipes.map Recipe.id).Nodup; decide) (by decide) (by decide)
    (by decide)

/-- C4: after an owner's recipe update the row's association sets follow the
payload exactly: with `tags` present the final tag set is exactly the set
the name list describes (each name resolved to a caller-owned tag row);
with `tags: []` every tag association is cleared while the tag table
itself is untouched; with the `tags` key omitted the associations stay as
they were — and the same for ingredients, including the exact-set property
for a non-empty ingredient name list. -/
theorem claim_C4 (db : DB) (u : Nat) (r : Recipe) (p : RecipePayload)
    (hwf : db.recipeIdsNodup) (hr : r ∈ db.recipes) (hu : r.user = u) :
    (recipeDetailUpdate db u r.id p).1 = 200 ∧
    (∀ ns, p.tags = some ns →
      ∃ r', (recipeDetailUpdate db u r.id p).2.recipeById r.id = some r' ∧
        (∀ n ∈ ns, ∃ t ∈ (recipeDetailUpdate db u r.id p).2.tags,
          t.user = u ∧ t.name = n ∧ t.id ∈ r'.tags) ∧
        (∀ i ∈ r'.tags, ∃ t ∈ (recipeDetailUpdate db u r.id p).2.tags,
          t.id = i ∧ t.user = u ∧ t.name ∈ ns)) ∧
    (p.tags = some [] →
      ∃ r', (recipeDetailUpdate db u r.id p).2.recipeById r.id = some r' ∧
        r'.tags = [] ∧ (recipeDetailUpdate db u r.id p).2.tags = db.tags) ∧
    (p.tags = none →
      ∃ r', (recipeDetailUpdate db u r.id p).2.recipeById r.id = some r' ∧
        r'.tags = r.tags) ∧
    (p.ingredients = some [] →
      ∃ r', (recipeDetailUpdate db u r.id p).2.recipeById r.id = some r' ∧
        r'.ingredients = [] ∧
        (recipeDetailUpdate db u r.id p).2.ingredients = db.ingredients) ∧
    (p.ingredients = none →
      ∃ r', (recipeDetailUpdate db u r.id p).2.recipeById r.id = some r' ∧
        r'.ingredients = r.ingredients) ∧
    (∀ ns, p.ingredients = some ns →
      ∃ r', (recipeDetailUpdate db u r.id p).2.recipeById r.id = some r' ∧
        (∀ n ∈ ns, ∃ t ∈ (recipeDetailUpdate db u r.id p).2.ingredients,
          t.user = u ∧ t.name = n ∧ t.id ∈ r'.ingredients) ∧
        (∀ i ∈ r'.ingredients, ∃ t ∈ (recipeDetailUpdate db u r.id p).2.ingredients,
          t.id = i ∧ t.user = u ∧ t.name ∈ ns)) := by
  have hobj : RecipeViewSet.get_object db u r.id = some r :=
    get_object_of_mem hwf hr hu
  obtain ⟨R, hRid, hRuser, hRrec, hTsome, hTnone, hInone, hInil, hIsome⟩ :=
    rsu_master db u r p
  have hre : (recipeDetailUpdate db u r.id p).2 = recipeSerializerUpdate db u r p := by
    rw [recipeDetailUpdate, hobj]
  have hfound : (recipeDetailUpdate db u r.id p).2.recipeById r.id = some R := by
    rw [hre, DB.recipeById, hRrec]
    exact find?_map_upd hr hRid
  refine ⟨by rw [recipeDetailUpdate, hobj], ?_, ?_, ?_, ?_, ?_, ?_⟩
  · intro ns hns
    obtain ⟨hRtags, hdbtags⟩ := hTsome ns hns
    refine ⟨R, hfound, ?_, ?_⟩
    · intro n hn
      obtain ⟨t, ht, htu, htn, hti⟩ := getOrCreateTags_covers n hn
      refine ⟨t, by rw [hre, hdbtags]; exact ht, htu, htn, ?_⟩
      rw [hRtags, mem_dedupFirst]
      exact ⟨hti, by simp⟩
    · intro i hi
      rw [hRtags, mem_dedupFirst] at hi
      obtain ⟨t, ht, hti, htu, htn⟩ := getOrCreateTags_ids i hi.1
      exact ⟨t, by rw [hre, hdbtags]; exact ht, hti, htu, htn⟩
  · intro hnil
    obtain ⟨hRtags, hdbtags⟩ := hTsome [] hnil
    refine ⟨R, hfound, ?_, ?_⟩
    · rw [hRtags]
      simp [getOrCreateTags, dedupFirst]
    · rw [hre, hdbtags]
      simp [getOrCreateTags]
  · intro hnone
    exact ⟨R, hfound, (hTnone hnone).1⟩
  · intro hnil
    refine ⟨R, hfound, (hInil hnil).1, ?_⟩
    rw [hre]
    exact (hInil hnil).2
  · intro hnone
    exact ⟨R, hfound, (hInone hnone).1⟩
  · intro ns hns
    obtain ⟨X, hRing, hdbing⟩ := hIsome ns hns
    refine ⟨R, hfound, ?_, ?_⟩
    · intro n hn
      obtain ⟨t, ht, htu, htn, hti⟩ := @getOrCreateIngredients_covers X u ns n hn
      refine ⟨t, by rw [hre, hdbing]; exact ht, htu, htn, ?_⟩
      rw [hRing, mem_dedupFirst]
      exact ⟨hti, by simp⟩
    · intro i hi
      rw [hRing, mem_dedupFirst] at hi
      obtain ⟨t, ht, hti, htu, htn⟩ := @getOrCreateIngredients_ids X u ns i hi.1
      exact ⟨t, by rw [hre, hdbing]; exact ht, hti, htu, htn⟩

/-- Witness for C4 on closed input: user 1 clearing the tag list of their
recipe that carries the "Dessert" tag. -/
theorem claim_C4_witness :
    (recipeDetailUpdate sampleDB 1 sampleRecipe1.id (tagsOnlyPayload [])).1 = 200 ∧
    ∃ r', (recipeDetailUpdate sampleDB 1 sampleRecipe1.id
        (tagsOnlyPayload [])).2.recipeById sampleRecipe1.id = some r' ∧
      r'.tags = [] ∧
      (recipeDetailUpdate sampleDB 1 sampleRecipe1.id
        (tagsOnlyPayload [])).2.tags = sampleDB.tags := by
  have h := claim_C4 sampleDB 1 { sampleRecipe1 with tags := [5] }
    (tagsOnlyPayload [])
    (by show (sampleDB.recipes.map Recipe.id).Nodup; decide) (by decide) (by decide)
  exact ⟨h.1, h.2.2.1 rfl⟩

/-- C2: each nested `{name}` entry resolves through a case-sensitive exact
name lookup among the caller's own rows only: the resolved row is always
owned by the caller; when the caller owns an exact-name match nothing is
created and that row is reused; when the caller owns no exact-name match —
even if another user owns a same-named row — a fresh row owned by the
caller is appended; and the same for ingredients. -/
theorem claim_C2 (db : DB) (u : Nat) (n : String) :
    ((∃ t, t ∈ (getOrCreateTag db u n).1.tags ∧ t.id = (getOrCreateTag db u n).2 ∧
        t.user = u ∧ t.name = n) ∧
      ((∃ t ∈ db.tags, t.user = u ∧ t.name = n) → (getOrCreateTag db u n).1 = db) ∧
      ((∀ t ∈ db.tags, t.user = u → t.name ≠ n) →
        (getOrCreateTag db u n).1.tags = db.tags ++ [⟨db.nextTagId, u, n⟩] ∧
        (getOrCreateTag db u n).2 = db.nextTagId)) ∧
    ((∃ t, t ∈ (getOrCreateIngredient db u n).1.ingredients ∧
        t.id = (getOrCreateIngredient db u n).2 ∧ t.user = u ∧ t.name = n) ∧
      ((∃ t ∈ db.ingredients, t.user = u ∧ t.name = n) →
        (getOrCreateIngredient db u n).1 = db) ∧
      ((∀ t ∈ db.ingredients, t.user = u → t.name ≠ n) →
        (getOrCreateIngredient db u n).1.ingredients =
          db.ingredients ++ [⟨db.nextIngredientId, u, n⟩] ∧
        (getOrCreateIngredient db u n).2 = db.nextIngredientId)) := by
  constructor
  · refine ⟨getOrCreateTag_spec db u n, ?_, ?_⟩
    · rintro ⟨t, ht, htu, htn⟩
      rw [getOrCreateTag]
      cases hf : db.tags.find? (fun x => x.user == u && x.name == n) with
      | some s => rfl
      | none =>
          exfalso
          rw [List.find?_eq_none] at hf
          exact hf t ht (by simp [htu, htn])
    · intro hno
      have hf : db.tags.find? (fun x => x.user == u && x.name == n) = none := by
        rw [List.find?_eq_none]
        intro t ht
        simp only [Bool.and_eq_true, beq_iff_eq, not_and]
        exact hno t ht
      rw [getOrCreateTag, hf]
      exact ⟨rfl, rfl⟩
  · refine ⟨getOrCreateIngredient_spec db u n, ?_, ?_⟩
    · rintro ⟨t, ht, htu, htn⟩
      rw [getOrCreateIngredient]
      cases hf : db.ingredients.find? (fun x => x.user == u && x.name == n) with
      | some s => rfl
      | none =>
          exfalso
          rw [List.find?_eq_none] at hf
          exact hf t ht (by simp [htu, htn])
    · intro hno
      have hf : db.ingredients.find? (fun x => x.user == u && x.name == n) = none := by
        rw [List.find?_eq_none]
        intro t ht
        simp only [Bool.and_eq_true, beq_iff_eq, not_and]
        exact hno t ht
      rw [getOrCreateIngredient, hf]
      exact ⟨rfl, rfl⟩

/-- Witness for C2 on closed input: user 1 submits the name "Indian" while
only user 2 owns a tag of that name — a fresh tag owned by user 1 is
created rather than user 2's row being reused. -/
theorem claim_C2_witness :
    (getOrCreateTag sampleDB 1 "Indian").1.tags =
      sampleDB.tags ++ [⟨sampleDB.nextTagId, 1, "Indian"⟩] ∧
    (getOrCreateTag sampleDB 1 "Indian").2 = sampleDB.nextTagId :=
  (claim_C2 sampleDB 1 "Indian").1.2.2 (by decide)

/-- C3: the nested reconciliation is idempotent — running the same name list
twice (tags or ingredients) changes nothing the second time and returns the
same ids; when per-owner names start unique, exactly one row per submitted
name per user exists afterwards; patching two different recipes of the same
user with the same tag name list leaves both with the identical association
set, the one the single run produced. -/
theorem claim_C3 (db : DB) (u : Nat) (ns : List String) :
    (getOrCreateTags (getOrCreateTags db u ns).1 u ns =
        ((getOrCreateTags db u ns).1, (getOrCreateTags db u ns).2) ∧
      getOrCreateIngredients (getOrCreateIngredients db u ns).1 u ns =
        ((getOrCreateIngredients db u ns).1, (getOrCreateIngredients db u ns).2)) ∧
    (db.tagsDistinct → ∀ n ∈ ns, ∃! t : Tag,
      t ∈ (getOrCreateTags db u ns).1.tags ∧ t.user = u ∧ t.name = n) ∧
    (db.ingredientsDistinct → ∀ n ∈ ns, ∃! t : Ingredient,
      t ∈ (getOrCreateIngredients db u ns).1.ingredients ∧ t.user = u ∧ t.name = n) ∧
    (∀ r1 r2 : Recipe, db.recipeIdsNodup → r1 ∈ db.recipes → r2 ∈ db.recipes →
      r1.user = u → r2.user = u → r1.id ≠ r2.id →
      ∃ s1 s2 : Recipe,
        (recipeDetailUpdate (recipeDetailUpdate db u r1.id (tagsOnlyPayload ns)).2
          u r2.id (tagsOnlyPayload ns)).2.recipeById r1.id = some s1 ∧
        (recipeDetailUpdate (recipeDetailUpdate db u r1.id (tagsOnlyPayload ns)).2
          u r2.id (tagsOnlyPayload ns)).2.recipeById r2.id = some s2 ∧
        s1.tags = s2.tags ∧
        s1.tags = dedupFirst [] (getOrCreateTags db u ns).2) := by
  refine ⟨⟨?_, ?_⟩, ?_, ?_, ?_⟩
  · exact getOrCreateTags_stable
      ((List.append_nil (getOrCreateTags db u ns).1.tags).symm)
  · exact getOrCreateIngredients_stable
      ((List.append_nil (getOrCreateIngredients db u ns).1.ingredients).symm)
  · intro hdist n hn
    obtain ⟨t, ht, htu, htn, -⟩ := getOrCreateTags_covers n hn
    refine ⟨t, ⟨ht, htu, htn⟩, ?_⟩
    rintro y ⟨hy, hyu, hyn⟩
    exact tagsDistinct_unique (getOrCreateTags_distinct hdist) hy ht
      (hyu.trans htu.symm) (hyn.trans htn.symm)
  · intro hdist n hn
    obtain ⟨t, ht, htu, htn, -⟩ := getOrCreateIngredients_covers n hn
    refine ⟨t, ⟨ht, htu, htn⟩, ?_⟩
    rintro y ⟨hy, hyu, hyn⟩
    exact ingredientsDistinct_unique (getOrCreateIngredients_distinct hdist) hy ht
      (hyu.trans htu.symm) (hyn.trans htn.symm)
  · intro r1 r2 hwf hr1 hr2 hu1 hu2 hne
    have hP : (tagsOnlyPayload ns).tags = some ns := rfl
    have hobj1 : RecipeViewSet.get_object db u r1.id = some r1 :=
      get_object_of_mem hwf hr1 hu1
    obtain ⟨R1, hR1id, hR1user, hR1rec, hT1, -, -, -, -⟩ :=
      rsu_master db u r1 (tagsOnlyPayload ns)
    obtain ⟨hR1tags, hdb1tags⟩ := hT1 ns hP
    have hupd1 : (recipeDetailUpdate db u r1.id (tagsOnlyPayload ns)).2 =
        recipeSerializerUpdate db u r1 (tagsOnlyPayload ns) := by
      rw [recipeDetailUpdate, hobj1]
    have hids1 : (recipeSerializerUpdate db u r1 (tagsOnlyPayload ns)).recipes.map
        Recipe.id = db.recipes.map Recipe.id := by
      rw [hR1rec]
      exact map_id_upd hR1id
    have hwf1 : (recipeSerializerUpdate db u r1 (tagsOnlyPayload ns)).recipeIdsNodup := by
      rw [DB.recipeIdsNodup, hids1]
      exact hwf
    have hr2mem : r2 ∈ (recipeSerializerUpdate db u r1 (tagsOnlyPayload ns)).recipes := by
      rw [hR1rec]
      exact mem_map_upd hr2 (Ne.symm hne)
    have hobj2 : RecipeViewSet.get_object
        (recipeSerializerUpdate db u r1 (tagsOnlyPayload ns)) u r2.id = some r2 :=
      get_object_of_mem hwf1 hr2mem hu2
    obtain ⟨R2, hR2id, hR2user, hR2rec, hT2, -, -, -, -⟩ :=
      rsu_master (recipeSerializerUpdate db u r1 (tagsOnlyPayload ns)) u r2
        (tagsOnlyPayload ns)
    obtain ⟨hR2tags, -⟩ := hT2 ns hP
    have hstabh : (recipeSerializerUpdate db u r1 (tagsOnlyPayload ns)).tags =
        (getOrCreateTags db u ns).1.tags ++ ([] : List Tag) := by
      rw [List.append_nil]
      exact hdb1tags
    have hstab := getOrCreateTags_stable hstabh
    have hR2tags' : R2.tags = dedupFirst [] (getOrCreateTags db u ns).2 := by
      rw [hR2tags, hstab]
    have houter : (recipeDetailUpdate
        (recipeDetailUpdate db u r1.id (tagsOnlyPayload ns)).2 u r2.id
        (tagsOnlyPayload ns)).2 =
        recipeSerializerUpdate (recipeSerializerUpdate db u r1 (tagsOnlyPayload ns))
          u r2 (tagsOnlyPayload ns) := by
      rw [hupd1, recipeDetailUpdate, hobj2]
    have hfound1 : (recipeSerializerUpdate db u r1 (tagsOnlyPayload ns)).recipes.find?
        (fun x => x.id == r1.id) = some R1 := by
      rw [hR1rec]
      exact find?_map_upd hr1 hR1id
    have hg2 : ∀ x : Recipe,
        ((fun x => if x.id == r2.id then R2 else x) x).id = x.id := by
      intro x
      by_cases h : x.id = r2.id <;> simp [h, hR2id]
    refine ⟨R1, R2, ?_, ?_, ?_, hR1tags⟩
    · rw [houter, DB.recipeById, hR2rec, recipeById_map_pres hg2, hfound1]
      simp [hR1id, hne]
    · rw [houter, DB.recipeById, hR2rec]
      exact find?_map_upd hr2mem hR2id
    · rw [hR1tags, hR2tags']

/-- Witness for C3 on closed input: submitting `["Thai"]` for user 1 yields
exactly one "Thai" tag row, and patching user 1's two recipes in turn with
that list leaves both sharing the same association set. -/
theorem claim_C3_witness :
    (∃! t : Tag, t ∈ (getOrCreateTags sampleDB 1 ["Thai"]).1.tags ∧ t.user = 1 ∧
      t.name = "Thai") ∧
    ∃ s1 s2 : Recipe,
      (recipeDetailUpdate (recipeDetailUpdate sampleDB 1 sampleRecipe1.id
        (tagsOnlyPayload ["Thai"])).2 1 sampleRecipe2.id
        (tagsOnlyPayload ["Thai"])).2.recipeById sampleRecipe1.id = some s1 ∧
      (recipeDetailUpdate (recipeDetailUpdate sampleDB 1 sampleRecipe1.id
        (tagsOnlyPayload ["Thai"])).2 1 sampleRecipe2.id
        (tagsOnlyPayload ["Thai"])).2.recipeById sampleRecipe2.id = some s2 ∧
      s1.tags = s2.tags ∧
      s1.tags = dedupFirst [] (getOrCreateTags sampleDB 1 ["Thai"]).2 := by
  have h := claim_C3 sampleDB 1 ["Thai"]
  refine ⟨h.2.1 ?_ "Thai" (by simp), ?_⟩
  · show sampleDB.tags.Pairwise (fun a b => a.user = b.user → a.name ≠ b.name)
    decide
  · exact h.2.2.2 { sampleRecipe1 with tags := [5] } sampleRecipe2
      (by show (sampleDB.recipes.map Recipe.id).Nodup; decide)
      (by decide) (by decide) (by decide) (by decide) (by decide)

/-- C6 counterexample: the claim says the `/tags/` and `/ingredients/`
collection endpoints support POST; the viewsets carry no create action
(views.py lines 36-41 list only the list, update and destroy mixins), so
the router leaves POST unbound on both collection routes. -/
theorem claim_C6_counterexample :
    collectionAllows TagViewSet.actions Method.post = false ∧
    collectionAllows IngredientViewSet.actions Method.post = false := by
  exact ⟨rfl, rfl⟩

/-- C6 amended: the `/tags/` collection endpoint supports GET (listing the
caller's own tags) but not POST — tag creation is not exposed there — and
the `/ingredients/` collection endpoint behaves the same. -/
theorem claim_C6_amended :
    collectionAllows TagViewSet.actions Method.get = true ∧
    collectionAllows TagViewSet.actions Method.post = false ∧
    collectionAllows IngredientViewSet.actions Method.get = true ∧
    collectionAllows IngredientViewSet.actions Method.post = false ∧
    ∀ (db : DB) (u : Nat) (t : Tag), t ∈ TagViewSet.get_queryset db u → t.user = u := by
  refine ⟨rfl, rfl, rfl, rfl, ?_⟩
  intro db u t ht
  rw [TagViewSet.get_queryset, mem_orderByNameDesc, List.mem_filter] at ht
  simpa using ht.2

/-- Witness for the C6 amended theorem on closed input: the one tag the
listing returns to user 1 in the sample store is owned by user 1. -/
theorem claim_C6_witness :
    (⟨5, 1, "Dessert"⟩ : Tag) ∈ TagViewSet.get_queryset sampleDB 1 →
      (⟨5, 1, "Dessert"⟩ : Tag).user = 1 :=
  claim_C6_amended.2.2.2.2 sampleDB 1 ⟨5, 1, "Dessert"⟩

/-- C7: the user manager stores an accepted email with its domain part (the
text after the `'@'`) lower-cased and its local part untouched. -/
theorem claim_C7 (s : UserStore) (lp dp pw nm : String)
    (hd : '@' ∉ dp.data) :
    ∃ s' urec, create_user s (some (lp ++ "@" ++ dp)) pw nm = .ok (s', urec) ∧
      urec.email = lp ++ "@" ++ dp.toLower := by
  have hdata : (lp ++ "@" ++ dp).data = lp.data ++ '@' :: dp.data := by
    simp
  have hne : (lp ++ "@" ++ dp) ≠ "" := by
    intro hcon
    have h0 : lp.data ++ '@' :: dp.data = ([] : List Char) := by
      rw [← hdata, hcon]
    simp at h0
  have hnorm : normalize_email (lp ++ "@" ++ dp) = lp ++ "@" ++ dp.toLower := by
    rw [normalize_email, if_pos]
    · apply String.ext
      show (lowerDomainRev (lp ++ "@" ++ dp).data.reverse).reverse =
        (lp ++ "@" ++ dp.toLower).data
      rw [hdata, List.reverse_append, List.reverse_cons, List.append_assoc,
        List.singleton_append, lowerDomainRev_append (by simpa using hd)]
      simp [String.toLower, String.map_eq]
    · simp [hdata]
  have hcu : create_user s (some (lp ++ "@" ++ dp)) pw nm =
      .ok ({ users := s.users ++
              [⟨s.nextUserId, normalize_email (lp ++ "@" ++ dp), pw, nm⟩],
             nextUserId := s.nextUserId + 1 },
           ⟨s.nextUserId, normalize_email (lp ++ "@" ++ dp), pw, nm⟩) := by
    rw [create_user, if_neg hne]
  exact ⟨_, _, hcu, hnorm⟩

/-- Witness for C7 on closed input: "Test2@EXAMPLE.com" is stored as
"Test2@example.com" (the model test's second sample pair). -/
theorem claim_C7_witness :
    ∃ s' urec, create_user emptyUserStore (some ("Test2" ++ "@" ++ "EXAMPLE.com"))
        "sample123" "" = .ok (s', urec) ∧
      urec.email = "Test2" ++ "@" ++ ("EXAMPLE.com").toLower :=
  claim_C7 emptyUserStore "Test2" "EXAMPLE.com" "sample123" "" (by decide)

/-- C8: a registration whose password is below the minimum length responds
400 and creates nothing — the store is untouched, so a store with no user
under that email still has none. -/
theorem claim_C8 (s : UserStore) (email pw nm : String)
    (hshort : pw.length < 5)
    (hclean : ∀ urec ∈ s.users, urec.email ≠ email) :
    createUserEndpoint s email pw nm = (400, s) ∧
    ∀ urec ∈ (createUserEndpoint s email pw nm).2.users, urec.email ≠ email := by
  have h400 : createUserEndpoint s email pw nm = (400, s) := by
    rw [createUserEndpoint, if_pos hshort]
  exact ⟨h400, by rw [h400]; exact hclean⟩

/-- Witness for C8 on closed input: the test's payload — password "pwd"
(3 characters) for "testuser@example.com" against an empty store. -/
theorem claim_C8_witness :
    createUserEndpoint emptyUserStore "testuser@example.com" "pwd" "testuser" =
      (400, emptyUserStore) ∧
    ∀ urec ∈ (createUserEndpoint emptyUserStore "testuser@example.com" "pwd"
        "testuser").2.users, urec.email ≠ "testuser@example.com" :=
  claim_C8 emptyUserStore "testuser@example.com" "pwd" "testuser"
    (by decide) (by intro urec h; cases h)

/-- C9: creating a user through the manager with no email is an error — the
`Except` carries no store, so no row (and in particular no empty-email
row) is created. -/
theorem claim_C9 (s : UserStore) (pw nm : String) :
    create_user s none pw nm = .error "Users must have an email address" := by
  rw [create_user]
